import Mathlib

/-!
# More-Ordered-Lists: a shallow embedding of the marker codec / parser core

This file embeds, in Lean, the list-marker recognition and resequencing core
of the More-Ordered-Lists plugin and proves (or refutes) the frozen claims
about it.  Strings are modelled as `List Char`; JavaScript numbers are
modelled as `Nat`/`Int` (the algorithms involved only perform exact integer
arithmetic on the ranges exercised here); a function that `throw`s is
modelled as returning `Option` with `none` for the thrown error.

Sources embedded (file names as in the repository snapshot):
* `ParsedListLine` and its methods (`getLineText`, `getIndentationLevel`,
  `decreaseIndentationLevel`, `applyCaseStyle`, `getValue` and the three
  value calculators) from `main.ts` / `src/types.ts`;
* `Parser` (`parseLine`, `createResult`, `determineListType`,
  `determineIntrinsicListType`, `isValidRomanNumeral`, `parseList`,
  `parseLists`) from `src/parser.ts`;
* the marker generators (`generateStandardAlphabeticalMarker`,
  `generateRepeatedLettersMarker`, `generateRomanMarker`,
  `generateAlphabeticalMarker`) from the older parser revision that the
  claims cite;
* `KeyHandler.collectReorderChanges` from the older key-handler revision.
-/

namespace MoreOrderedLists

/-! ## Character and string helpers

The markers treated by the plugin are ASCII (letters, digits, `*-+`, dots,
parentheses, spaces and tabs), so ASCII models of JavaScript's
`toLowerCase`/`toUpperCase` and of the regex classes suffice.
-/

/-- ASCII model of `String.prototype.toLowerCase` on a single character. -/
def toLowerChar (c : Char) : Char :=
  if 'A' ≤ c ∧ c ≤ 'Z' then Char.ofNat (c.toNat + 32) else c

/-- ASCII model of `String.prototype.toUpperCase` on a single character. -/
def toUpperChar (c : Char) : Char :=
  if 'a' ≤ c ∧ c ≤ 'z' then Char.ofNat (c.toNat - 32) else c

/-- `marker.toLowerCase()` -/
def toLowerStr (s : List Char) : List Char := s.map toLowerChar

/-- `marker.toUpperCase()` -/
def toUpperStr (s : List Char) : List Char := s.map toUpperChar

/-- Model of the regex class `\s` (the inputs considered contain only
spaces and tabs as whitespace). -/
def isSpaceChar (c : Char) : Bool := c = ' ' || c = '\t'

/-- The regex class `[0-9]`. -/
def isDigitChar (c : Char) : Bool := '0' ≤ c && c ≤ '9'

/-- The regex class `[A-Z]`. -/
def isUpperAZ (c : Char) : Bool := 'A' ≤ c && c ≤ 'Z'

/-- The regex class `[a-z]`. -/
def isLowerAZ (c : Char) : Bool := 'a' ≤ c && c ≤ 'z'

/-- Decimal value of a digit run (used by the `parseInt` model). -/
def digitsToNat (s : List Char) : Nat :=
  s.foldl (fun a c => a * 10 + (c.toNat - 48)) 0

/-! ## Data model (`src/types.ts`) -/

/-- `enum ListType` (the parser revision under `src/parser.ts` also uses an
`Unordered` member, declared in its `types.ts`). -/
inductive ListType where
  | alphabetical
  | roman
  | nestedAlphabetical
  | numbered
  | unordered
deriving DecidableEq, Repr

/-- `enum ListSeparator { Dot = '.', Parenthesis = ')', Parentheses = '()' }` -/
inductive ListSeparator where
  | dot
  | parenthesis
  | parentheses
deriving DecidableEq, Repr

/-- The character a (non-double-parenthesis) separator renders as. -/
def separatorChar : ListSeparator → Char
  | .dot => '.'
  | .parenthesis => ')'
  | .parentheses => ')'

/-- `class ParsedListLine` — the Marker Line record. -/
structure ParsedListLine where
  type : ListType
  indentation : List Char
  marker : List Char
  separator : ListSeparator
  content : List Char
deriving DecidableEq, Repr

/-- `MoreOrderedListsSettings` (`src/settings/types.ts`). -/
inductive NestedMode where
  | disabled
  | bijective
  | repeated
deriving DecidableEq, Repr

/-- `caseStyle: 'upper' | 'lower' | 'both' | 'none'` -/
inductive CaseStyle where
  | upper
  | lower
  | both
  | none
deriving DecidableEq, Repr

structure MoreOrderedListsSettings where
  enableAlphabeticalLists : Bool
  enableRomanLists : Bool
  nestedAlphabeticalMode : NestedMode
  caseStyle : CaseStyle
  enableParentheses : Bool
  enableJuraOrdering : Bool
deriving DecidableEq, Repr

/-- `DEFAULT_SETTINGS = new MoreOrderedListsSettings()` -/
def DEFAULT_SETTINGS : MoreOrderedListsSettings :=
  ⟨true, true, .bijective, .both, true, false⟩

def hasLowercase (s : MoreOrderedListsSettings) : Bool :=
  s.caseStyle = .lower || s.caseStyle = .both

def hasUppercase (s : MoreOrderedListsSettings) : Bool :=
  s.caseStyle = .upper || s.caseStyle = .both

/-! ## `ParsedListLine.getLineText` (`main.ts` lines 123–128) -/

/-- ```
if (this.separator === ListSeparator.Parentheses)
    return this.indentation + '(' + this.marker + ')' + this.content
else
    return this.indentation + this.marker + this.separator + this.content
``` -/
def getLineText (l : ParsedListLine) : List Char :=
  if l.separator = ListSeparator.parentheses then
    l.indentation ++ '(' :: (l.marker ++ ')' :: l.content)
  else
    l.indentation ++ l.marker ++ separatorChar l.separator :: l.content

/-! ## Indentation (`main.ts` lines 136–190) -/

/-- The loop of `ParsedListLine.getIndentationLevel` (static).  The source
scans once, adding one level per tab and, for each maximal run of spaces,
`⌊run/4⌋` levels (the inner `while` skips the whole run); here the current
run's length is carried in the `spaces` accumulator and flushed as
`spaces / 4` when the run ends (at a non-space character or at the end). -/
def getIndentationLevelGo : List Char → Nat → Nat
  | [], spaces => spaces / 4
  | c :: rest, spaces =>
    if c = '\t' then spaces / 4 + (1 + getIndentationLevelGo rest 0)
    else if c = ' ' then getIndentationLevelGo rest (spaces + 1)
    else spaces / 4 + getIndentationLevelGo rest 0

/-- `ParsedListLine.getIndentationLevel` (static): each tab adds one level,
each maximal run of spaces adds `⌊run/4⌋` levels, other characters add
nothing. -/
def getIndentationLevel (indentation : List Char) : Nat :=
  getIndentationLevelGo indentation 0

/-- `ParsedListLine.decreaseIndentationLevel` as a state transformer on the
`indentation` field: `none` models the thrown error; the branch that the
source exits with `return ''` (assigning nothing) is modelled by returning
the indentation unchanged. -/
def decreaseIndentationLevel (indentation : List Char) : Option (List Char) :=
  -- if (!this.indentation) throw new Error('No indentation to decrease')
  if indentation = [] then none
  else
    -- count trailing spaces
    let trailingSpaces := (indentation.reverse.takeWhile (fun c => c = ' ')).length
    let incompleteSpaces := trailingSpaces % 4
    -- remove trailing spaces that don't form a complete 4-space level
    let result :=
      if incompleteSpaces ≠ 0 then indentation.take (indentation.length - incompleteSpaces)
      else indentation
    -- remove from the end: either 1 tab or 4 spaces
    if result.getLast? = some '\t' then
      let result := result.take (result.length - 1)
      some (if incompleteSpaces ≠ 0 then result ++ List.replicate incompleteSpaces ' ' else result)
    else if 4 ≤ trailingSpaces then
      let result := result.take (result.length - 4)
      some (if incompleteSpaces ≠ 0 then result ++ List.replicate incompleteSpaces ' ' else result)
    else
      -- `return ''`: the method returns without assigning `this.indentation`
      -- and without throwing, so the line's indentation is left unchanged
      some indentation

/-! ## Case style (`main.ts` lines 194–209) -/

/-- `ParsedListLine.applyCaseStyle`: re-case `marker` following the case of
`l.marker`. -/
def applyCaseStyle (l : ParsedListLine) (marker : List Char) : List Char :=
  if l.marker = toUpperStr l.marker then toUpperStr marker
  else if l.marker = toLowerStr l.marker then toLowerStr marker
  else marker

/-! ## Alphabetical codec

Decoder: `ParsedListLine.calculateBijectiveBase26Value` (`main.ts` 291–311).
Encoder: `Parser.generateStandardAlphabeticalMarker` (older parser revision,
342–359).
-/

/-- `charCode = lowerMarker.charCodeAt(i) - 96` together with the range
check `charCode < 1 || charCode > 26` (the source lowercases the whole
marker up front; mapping `toLowerCase` per character is the same thing). -/
def bijectiveDigit (c : Char) : Option Nat :=
  let charCode : Int := (toLowerChar c).toNat - 96
  if charCode < 1 ∨ 26 < charCode then none else some charCode.toNat

/-- The positional sum `Σ charCode_i * 26^(length-1-i)` of the decoder's
`for` loop (the head contributes `26^(length of the tail)`). -/
def bijectiveSum : List Char → Option Nat
  | [] => some 0
  | c :: rest => do
    let d ← bijectiveDigit c
    let v ← bijectiveSum rest
    pure (d * 26 ^ rest.length + v)

/-- `ParsedListLine.calculateBijectiveBase26Value`: the positional sum,
erroring on an out-of-alphabet character or on the empty marker
(`value === 0`). -/
def calculateBijectiveBase26Value (marker : List Char) : Option Nat :=
  match bijectiveSum marker with
  | none => none
  | some value => if value = 0 then none else some value

/-- The `while (remaining > 0)` loop of
`Parser.generateStandardAlphabeticalMarker`: bijective reduction,
prepending one digit per iteration. -/
def generateStandardAlphabeticalMarkerGo (remaining : Nat) (result : List Char) : List Char :=
  if remaining = 0 then result
  else
    let r := remaining - 1          -- remaining-- (adjust for 1-based indexing)
    let charCode := r % 26 + 1      -- 1-26
    generateStandardAlphabeticalMarkerGo (r / 26) (Char.ofNat (96 + charCode) :: result)
termination_by remaining
decreasing_by
  have := Nat.div_le_self (remaining - 1) 26
  omega

/-- `Parser.generateStandardAlphabeticalMarker`; `none` models the thrown
"value out of range" error for `value < 1`. -/
def generateStandardAlphabeticalMarker (value : Nat) : Option (List Char) :=
  if value < 1 then none
  else some (generateStandardAlphabeticalMarkerGo value [])

/-! ## Repeated-letters codec

Decoder: `ParsedListLine.calculateRepeatedLettersValue` (`main.ts` 257–286).
Encoder: `Parser.generateRepeatedLettersMarker` (older parser revision,
362–388).
-/

/-- `ParsedListLine.calculateRepeatedLettersValue`: all characters must be
identical; the base value accumulated by the `for (len = 1; len < length)`
loop is `26 * (length - 1)`, to which the letter position 1–26 is added.
`none` models each of the two thrown errors (mixed letters; letter out of
bounds), and also `lowerMarker[0]` being `undefined` on an empty marker. -/
def calculateRepeatedLettersValue (marker : List Char) : Option Nat :=
  match toLowerStr marker with
  | [] => none
  | firstChar :: rest =>
    if ¬ rest.all (fun c => c = firstChar) then none
    else
      let charCode : Int := firstChar.toNat - 96
      if charCode < 1 ∨ 26 < charCode then none
      else some (26 * ((firstChar :: rest).length - 1) + charCode.toNat)

/-- The length-search loop of `Parser.generateRepeatedLettersMarker`:
starting from `length = 1`, `baseValue = 0`, advance by one 26-value group
per iteration, throwing (`none`) when `length` reaches the hard
`maxLength = 10` without its group containing `value`.  The number of
iterations still allowed (`maxLength - length`) is carried explicitly as
`fuel`, so the source's `length === maxLength` throw is the `fuel = 0`
case. -/
def generateRepeatedLettersMarkerGo (value : Nat) : Nat → Nat → Nat → Option (List Char)
  | baseValue, length, fuel =>
    if value ≤ baseValue + 26 then
      let letterIndex := value - baseValue                 -- 1-26
      some (List.replicate length (Char.ofNat (96 + letterIndex)))
    else
      match fuel with
      | 0 => none                                          -- length === maxLength
      | fuel + 1 => generateRepeatedLettersMarkerGo value (baseValue + 26) (length + 1) fuel

/-- `Parser.generateRepeatedLettersMarker`. -/
def generateRepeatedLettersMarker (value : Nat) : Option (List Char) :=
  if value < 1 then none
  else generateRepeatedLettersMarkerGo value 0 1 9

/-- `Parser.generateAlphabeticalMarker` (older parser revision, 330–340):
dispatch on the nested-alphabetical mode setting. -/
def generateAlphabeticalMarker (settings : MoreOrderedListsSettings) (value : Nat) :
    Option (List Char) :=
  if value < 1 then none
  else if settings.nestedAlphabeticalMode = NestedMode.repeated then
    generateRepeatedLettersMarker value
  else generateStandardAlphabeticalMarker value

/-! ## Roman codec

Decoder: `ParsedListLine.calculateRomanValue` (`main.ts` 316–344).
Encoder: `Parser.generateRomanMarker` (older parser revision, 390–424).
-/

/-- The `romanMap` lookup; `none` models `romanMap[roman[i]]` being
`undefined` (the `if (!currentValue) throw` branch). -/
def romanCharValue (c : Char) : Option Int :=
  if c = 'i' then some 1
  else if c = 'v' then some 5
  else if c = 'x' then some 10
  else if c = 'l' then some 50
  else if c = 'c' then some 100
  else if c = 'd' then some 500
  else if c = 'm' then some 1000
  else none

/-- The right-to-left summing loop of `calculateRomanValue`, expressed over
the reversed character list: subtract the current symbol when it is
strictly smaller than the previously processed (more significant) one. -/
def calculateRomanValueGo : List Char → Int → Int → Option Int
  | [], value, _ => some value
  | c :: rest, value, prevValue => do
    let currentValue ← romanCharValue c
    calculateRomanValueGo rest
      (if currentValue < prevValue then value - currentValue else value + currentValue)
      currentValue

/-- `ParsedListLine.calculateRomanValue`; errors on a non-Roman character
and on the empty marker (`value === 0`). -/
def calculateRomanValue (marker : List Char) : Option Int :=
  match calculateRomanValueGo (toLowerStr marker).reverse 0 0 with
  | none => none
  | some value => if value = 0 then none else some value

/-- The `romanNumeralMap` of `Parser.generateRomanMarker`, in descending
order of value. -/
def romanNumeralMap : List (Nat × List Char) :=
  [(1000, ['m']), (900, ['c', 'm']), (500, ['d']), (400, ['c', 'd']),
   (100, ['c']), (90, ['x', 'c']), (50, ['l']), (40, ['x', 'l']),
   (10, ['x']), (9, ['i', 'x']), (5, ['v']), (4, ['i', 'v']), (1, ['i'])]

/-- The inner `while (remainingValue >= value)` loop: it appends `numeral`
and subtracts `v` until the remaining value drops below `v`, i.e. it
appends `numeral` exactly `⌊remaining / v⌋` times and leaves
`remaining % v` (every value in `romanNumeralMap` is positive). -/
def romanRepeat (v : Nat) (numeral : List Char) (remaining : Nat) : List Char × Nat :=
  if v = 0 then ([], remaining)
  else ((List.replicate (remaining / v) numeral).flatten, remaining % v)

/-- The outer `for (const [value, numeral] of romanNumeralMap)` loop. -/
def generateRomanMarkerGo : List (Nat × List Char) → Nat → List Char
  | [], _ => []
  | (v, numeral) :: rest, remaining =>
    let p := romanRepeat v numeral remaining
    p.1 ++ generateRomanMarkerGo rest p.2

/-- `Parser.generateRomanMarker`; the only error is `value < 1` — the
source has no upper bound. -/
def generateRomanMarker (value : Nat) : Option (List Char) :=
  if value < 1 then none
  else some (generateRomanMarkerGo romanNumeralMap value)

/-! ## Numbered codec: a model of JavaScript `parseInt` -/

/-- Maximal leading digit run, `none` when there is none (`parseInt`
returns `NaN` in that case). -/
def parseDigits (s : List Char) : Option Nat :=
  match s.takeWhile isDigitChar with
  | [] => none
  | ds => some (digitsToNat ds)

/-- Model of `parseInt(s)` (decimal): skip leading whitespace, allow one
sign, then read the maximal digit run.  (The `0x` hexadecimal special case
is irrelevant here: such strings also begin with a digit.) -/
def jsParseInt (s : List Char) : Option Int :=
  match s.dropWhile isSpaceChar with
  | '-' :: rest => (parseDigits rest).map (fun n => -(n : Int))
  | '+' :: rest => (parseDigits rest).map (fun n => (n : Int))
  | rest => (parseDigits rest).map (fun n => (n : Int))

/-- `!isNaN(parseInt(marker))` -/
def jsParseIntSucceeds (s : List Char) : Bool := (jsParseInt s).isSome

/-! ## `ParsedListLine.getValue` (`main.ts` 216–248) -/

/-- `ParsedListLine.calculateAlphabeticalValue`: use repeated-letters mode
only for a multi-character `NestedAlphabetical` marker when the setting
asks for it, otherwise bijective base-26. -/
def calculateAlphabeticalValue (l : ParsedListLine) (useRepeatedLettersMode : Bool) :
    Option Nat :=
  let lowerMarker := toLowerStr l.marker
  let useRepeatedMode := useRepeatedLettersMode
    && l.type = ListType.nestedAlphabetical
    && 1 < lowerMarker.length
  if useRepeatedMode then calculateRepeatedLettersValue l.marker
  else calculateBijectiveBase26Value l.marker

/-- `ParsedListLine.getValue`; the `default: throw` branch (an unknown list
type, reached for `Unordered`) is `none`. -/
def getValue (l : ParsedListLine) (useRepeatedLettersMode : Bool) : Option Int :=
  match l.type with
  | .alphabetical | .nestedAlphabetical =>
    (calculateAlphabeticalValue l useRepeatedLettersMode).map (fun n => (n : Int))
  | .roman => calculateRomanValue l.marker
  | .numbered => jsParseInt l.marker
  | .unordered => none

/-! ## Roman well-formedness validator (`src/parser.ts` 322–338)

The validator lowercases, rejects the empty string, checks
`^[ivxlcdm]+$`, and then matches the anchored pattern
`^m{0,3}(cm|cd|d?c{0,3})(xc|xl|l?x{0,3})(ix|iv|v?i{0,3})$`.

Each of the three parenthesised groups denotes a ten-string language
(`cm|cd|d?c{0,3}` = { "", "c", "cc", "ccc", "cd", "d", "dc", "dcc",
"dccc", "cm" }, and likewise for tens and units); the anchored pattern's
language is exactly the set of concatenations of an `m`-prefix of length
0–3 with one member of each group.  The tables below list each group's
members indexed by the digit value they denote (index 0 = the empty
alternative), which enumerates the same ten strings.
-/

def isRomanChar (c : Char) : Bool :=
  c = 'i' || c = 'v' || c = 'x' || c = 'l' || c = 'c' || c = 'd' || c = 'm'

/-- Members of `cm|cd|d?c{0,3}`, indexed by hundreds digit. -/
def romanHundredsList : List (List Char) :=
  [[], ['c'], ['c', 'c'], ['c', 'c', 'c'], ['c', 'd'], ['d'], ['d', 'c'],
   ['d', 'c', 'c'], ['d', 'c', 'c', 'c'], ['c', 'm']]

/-- Members of `xc|xl|l?x{0,3}`, indexed by tens digit. -/
def romanTensList : List (List Char) :=
  [[], ['x'], ['x', 'x'], ['x', 'x', 'x'], ['x', 'l'], ['l'], ['l', 'x'],
   ['l', 'x', 'x'], ['l', 'x', 'x', 'x'], ['x', 'c']]

/-- Members of `ix|iv|v?i{0,3}`, indexed by units digit. -/
def romanUnitsList : List (List Char) :=
  [[], ['i'], ['i', 'i'], ['i', 'i', 'i'], ['i', 'v'], ['v'], ['v', 'i'],
   ['v', 'i', 'i'], ['v', 'i', 'i', 'i'], ['i', 'x']]

def romanHundredsTable (h : Nat) : List Char := romanHundredsList.getD h []
def romanTensTable (t : Nat) : List Char := romanTensList.getD t []
def romanUnitsTable (u : Nat) : List Char := romanUnitsList.getD u []

/-- Whole-string match of the anchored pattern
`m{0,3}(cm|cd|d?c{0,3})(xc|xl|l?x{0,3})(ix|iv|v?i{0,3})`: some choice of
`m`-count and one alternative per group concatenates to `s`. -/
def romanPatternMatch (s : List Char) : Bool :=
  (List.range 4).any fun a =>
    (List.range 10).any fun h =>
      (List.range 10).any fun t =>
        (List.range 10).any fun u =>
          s == List.replicate a 'm' ++ romanHundredsTable h ++
                romanTensTable t ++ romanUnitsTable u

/-- `Parser.isValidRomanNumeral`. -/
def isValidRomanNumeral (marker : List Char) : Bool :=
  let roman := toLowerStr marker
  if roman.isEmpty then false
  else if ¬ roman.all isRomanChar then false
  else romanPatternMatch roman

/-- The canonical (standard subtractive-notation) Roman numeral of `n`,
written digit by digit from the standard digit tables.  This is the
mathematical yardstick the validator is measured against in claim C3. -/
def canonicalRoman (n : Nat) : List Char :=
  List.replicate (n / 1000) 'm' ++ romanHundredsTable (n / 100 % 10) ++
    romanTensTable (n / 10 % 10) ++ romanUnitsTable (n % 10)

/-! ## Marker grammar (`src/parser.ts` 166–261)

`Parser.parseLine` tries three anchored regexes in order:

1. `^(\s*)([*\-+]) (.*)$`                        (unordered),
2. `^(\s*)(MARKER)([SEPS]) (.*)$`                 (standard),
3. `^(\s*)\((MARKER)\) (.*)$`                     (double parenthesis,
   only when parentheses are enabled),

where `MARKER` is the alternation built by `buildMarkerPattern`:
`[letters]{2,}|[letters]|[0-9]+` (each alternative present only when the
settings enable it) and `SEPS` is `\.` plus `\)` when parentheses are
enabled.

The matchers below implement these regexes deterministically.  This is
faithful because backtracking can never help here: `\s*` never yields
characters (no marker may start with whitespace), and a letter (digit) run
shortened by backtracking is followed by another letter (digit), which can
never match the separator that must come next; so each piece simply takes
its maximal match.
-/

/-- Does the settings-dependent letter class `[alphabetChars]` accept `c`? -/
def isMarkerLetter (settings : MoreOrderedListsSettings) (c : Char) : Bool :=
  (hasUppercase settings && isUpperAZ c) || (hasLowercase settings && isLowerAZ c)

/-- The alternation `[letters]{2,}|[letters]|[0-9]+` at the start of `s`:
returns the marker token and the rest of the line.  The multi-letter
alternative exists when nested-alphabetical or Roman lists are enabled, the
single-letter one when alphabetical or Roman lists are enabled; the digit
alternative always exists. -/
def matchMarkerToken (settings : MoreOrderedListsSettings) (s : List Char) :
    Option (List Char × List Char) :=
  match s with
  | [] => none
  | c :: _ =>
    if isMarkerLetter settings c then
      let run := s.takeWhile (isMarkerLetter settings)
      let rest := s.dropWhile (isMarkerLetter settings)
      let needMulti := settings.nestedAlphabeticalMode ≠ NestedMode.disabled
        || settings.enableRomanLists
      let needSingle := settings.enableAlphabeticalLists || settings.enableRomanLists
      if 2 ≤ run.length then if needMulti then some (run, rest) else none
      else if needSingle then some (run, rest) else none
    else if isDigitChar c then
      some (s.takeWhile isDigitChar, s.dropWhile isDigitChar)
    else none

/-- The separator class `[\.\)]` (the `\)` member only when parentheses are
enabled). -/
def matchSeparator (settings : MoreOrderedListsSettings) (c : Char) : Option ListSeparator :=
  if c = '.' then some ListSeparator.dot
  else if c = ')' ∧ settings.enableParentheses then some ListSeparator.parenthesis
  else none

/-- `^(\s*)([*\-+]) (.*)$` → (indentation, glyph, content). -/
def matchUnordered (lineText : List Char) : Option (List Char × Char × List Char) :=
  let indentation := lineText.takeWhile isSpaceChar
  match lineText.dropWhile isSpaceChar with
  | c :: ' ' :: content =>
    if c = '*' ∨ c = '-' ∨ c = '+' then some (indentation, c, content) else none
  | _ => none

/-- `^(\s*)(MARKER)([SEPS]) (.*)$` → (indentation, marker, separator, content). -/
def matchStandard (settings : MoreOrderedListsSettings) (lineText : List Char) :
    Option (List Char × List Char × ListSeparator × List Char) :=
  let indentation := lineText.takeWhile isSpaceChar
  match matchMarkerToken settings (lineText.dropWhile isSpaceChar) with
  | none => none
  | some (marker, rest) =>
    match rest with
    | sepChar :: ' ' :: content =>
      match matchSeparator settings sepChar with
      | none => none
      | some separator => some (indentation, marker, separator, content)
    | _ => none

/-- `^(\s*)\((MARKER)\) (.*)$` → (indentation, marker, content). -/
def matchParentheses (settings : MoreOrderedListsSettings) (lineText : List Char) :
    Option (List Char × List Char × List Char) :=
  let indentation := lineText.takeWhile isSpaceChar
  match lineText.dropWhile isSpaceChar with
  | '(' :: afterParen =>
    match matchMarkerToken settings afterParen with
    | none => none
    | some (marker, rest) =>
      match rest with
      | ')' :: ' ' :: content => some (indentation, marker, content)
      | _ => none
  | _ => none

/-! ## Type classification (`src/parser.ts` 265–311) -/

/-- `Parser.determineIntrinsicListType`. -/
def determineIntrinsicListType (settings : MoreOrderedListsSettings) (marker : List Char) :
    Option ListType :=
  if marker = ['*'] ∨ marker = ['-'] ∨ marker = ['+'] then some ListType.unordered
  else if jsParseIntSucceeds marker then some ListType.numbered
  else if isValidRomanNumeral marker ∧ settings.enableRomanLists then some ListType.roman
  else if marker.length = 1 ∧ settings.enableAlphabeticalLists then some ListType.alphabetical
  else if 1 < marker.length ∧ settings.nestedAlphabeticalMode ≠ NestedMode.disabled then
    some ListType.nestedAlphabetical
  else none

/-- `Parser.determineListType`. -/
def determineListType (settings : MoreOrderedListsSettings) (marker : List Char)
    (context : Option ParsedListLine) : Option ListType :=
  let intrinsicType := determineIntrinsicListType settings marker
  match context with
  | none => intrinsicType
  | some ctx =>
    if intrinsicType = some ctx.type then intrinsicType
    else if intrinsicType = some ListType.roman
        ∧ marker.length = ctx.marker.length
        ∧ (ctx.type = ListType.alphabetical ∨ ctx.type = ListType.nestedAlphabetical) then
      some ctx.type
    else if ctx.type = ListType.alphabetical
        ∧ intrinsicType = some ListType.nestedAlphabetical then
      some ListType.nestedAlphabetical
    else none

/-- `Parser.createResult` (`src/parser.ts` 203–221): classify and build the
Marker Line from the matched pieces, without modifying any of them. -/
def createResult (settings : MoreOrderedListsSettings) (indentation marker : List Char)
    (separator : ListSeparator) (content : List Char) (context : Option ParsedListLine) :
    Option ParsedListLine :=
  match determineListType settings marker context with
  | none => none
  | some listType => some ⟨listType, indentation, marker, separator, content⟩

/-- `Parser.parseLine` (`src/parser.ts` 166–201). -/
def parseLine (settings : MoreOrderedListsSettings) (lineText : List Char)
    (context : Option ParsedListLine) : Option ParsedListLine :=
  match matchUnordered lineText with
  | some (indentation, glyph, content) =>
    createResult settings indentation [glyph] ListSeparator.dot content context
  | none =>
  match matchStandard settings lineText with
  | some (indentation, marker, separator, content) =>
    createResult settings indentation marker separator content context
  | none =>
  if settings.enableParentheses then
    match matchParentheses settings lineText with
    | some (indentation, marker, content) =>
      createResult settings indentation marker ListSeparator.parentheses content context
    | none => none
  else none

/-! ## List context parser (`src/parser.ts` 70–164)

A document is modelled as a function from (1-based) line number to line
text, the shape in which `Parser` consumes `doc.line(n).text`.
-/

/-- `Parser.getIndentationLevel` (the private helper, 381–385): indentation
level of the `^\s*` prefix of a line. -/
def lineIndentationLevel (lineText : List Char) : Nat :=
  getIndentationLevel (lineText.takeWhile isSpaceChar)

/-- One iteration of the `parseList` loop body: given the context stack and
the line's text, either stop the list (`none`, any of the `break`s) or
produce the updated stack and the parsed line. -/
def parseListStep (settings : MoreOrderedListsSettings)
    (contextStack : List ParsedListLine) (lineText : List Char) :
    Option (List ParsedListLine × ParsedListLine) :=
  let indentationLevel := lineIndentationLevel lineText
  -- validate that the indentation increase is valid (one level at a time)
  if contextStack.length < indentationLevel then none
  else
    -- pop contexts until we're at (or below) target level
    let stack := contextStack.take (indentationLevel + 1)
    -- context from stack (previous line at same level)
    let context := stack.get? indentationLevel
    match parseLine settings lineText context with
    | none => none
    | some current =>
      -- parent from the stack (one level up)
      let parent := if 0 < indentationLevel then stack.get? (indentationLevel - 1) else none
      -- only parse if we are in a list or at the top level
      if context = none ∧ parent = none ∧ 0 < indentationLevel then none
      -- numbered and unordered lists are left to the host at top level
      else if (current.type = ListType.unordered
            ∨ (current.type = ListType.numbered
                ∧ current.separator ≠ ListSeparator.parentheses))
          ∧ (parent = none ∨ indentationLevel = 0) then none
      else
        let newStack :=
          if stack.length = indentationLevel then stack ++ [current]
          else stack.set indentationLevel current
        some (newStack, current)

/-- The `for (lineNumber = start; lineNumber <= end)` loop of
`Parser.parseList`.  The fuel argument counts the remaining loop
iterations (`end + 1 - lineNumber` at the first call); every iteration
either pushes one parsed line and moves to the next line or breaks. -/
def parseListGo (settings : MoreOrderedListsSettings) (doc : Nat → List Char) :
    Nat → List ParsedListLine → Nat → Nat → List (Nat × ParsedListLine)
  | 0, _, _, _ => []
  | fuel + 1, contextStack, lineNumber, endLine =>
    if endLine < lineNumber then []
    else
      match parseListStep settings contextStack (doc lineNumber) with
      | none => []
      | some (newStack, current) =>
        (lineNumber, current) ::
          parseListGo settings doc fuel newStack (lineNumber + 1) endLine

/-- `Parser.parseList` (`src/parser.ts` 102–164). -/
def parseList (settings : MoreOrderedListsSettings) (doc : Nat → List Char)
    (start endLine : Nat) : List (Nat × ParsedListLine) :=
  parseListGo settings doc (endLine + 1 - start) [] start endLine

/-- `Math.max(...parsedList.map(([lineNumber]) => lineNumber))` (only ever
taken of a non-empty list). -/
def maxLineNumber (parsedList : List (Nat × ParsedListLine)) : Nat :=
  (parsedList.map Prod.fst).foldl max 0

/-- The `while (currentLine <= end)` loop of `Parser.parseLists`.  The fuel
counts remaining loop iterations: each iteration advances `currentLine` by
at least one (an empty parse advances by one; a non-empty parse jumps past
the parsed list's greatest line number, which is at least `currentLine` by
`parseListGo_map_fst` below), so `end + 1 - start` iterations always
suffice. -/
def parseListsGo (settings : MoreOrderedListsSettings) (doc : Nat → List Char) :
    Nat → Nat → Nat → List (List (Nat × ParsedListLine))
  | 0, _, _ => []
  | fuel + 1, currentLine, endLine =>
    if endLine < currentLine then []
    else
      match parseList settings doc currentLine endLine with
      | [] => parseListsGo settings doc fuel (currentLine + 1) endLine
      | parsedList =>
        parsedList ::
          parseListsGo settings doc fuel (maxLineNumber parsedList + 1) endLine

/-- `Parser.parseLists` (`src/parser.ts` 70–92). -/
def parseLists (settings : MoreOrderedListsSettings) (doc : Nat → List Char)
    (start endLine : Nat) : List (List (Nat × ParsedListLine)) :=
  parseListsGo settings doc (endLine + 1 - start) start endLine

/-! ## Key handler: resequencing walk (`KeyHandler.collectReorderChanges`)

In this component a document is a `List (List Char)` of line texts (line
`n` is entry `n - 1`), matching `view.state.doc.lines` /
`view.state.doc.line(n).text`; a change is modelled at line granularity as
(line number, replacement text).
-/

/-- `view.state.doc.line(n).text` -/
def docLineText (doc : List (List Char)) (n : Nat) : List Char := doc.getD (n - 1) []

/-- Modelled from the spec: `ParsedListLine.correctNextMarker(context,
settings)` lives in the revision of `types.ts` that is not part of the
snapshot (only its callers are).  Per §4.5 of the spec the marker becomes
`encode(decode(contextMarker) + 1)` under the line's system, inheriting the
context's separator, and the operation fails (the caller's `catch`) when
the codec cannot encode the successor; this mirrors `Parser.correctMarker`
of the older parser revision (value = `context.getValue(...) + 1`, encoder
dispatched on the list type, result re-cased via
`context.applyCaseStyle`). -/
def correctNextMarker (settings : MoreOrderedListsSettings)
    (l context : ParsedListLine) : Option ParsedListLine :=
  match getValue context (settings.nestedAlphabeticalMode = NestedMode.repeated) with
  | none => none
  | some v =>
    let expectedValue := v + 1
    match l.type with
    | .roman =>
      (generateRomanMarker expectedValue.toNat).map fun m =>
        { l with marker := applyCaseStyle context m, separator := context.separator }
    | .alphabetical | .nestedAlphabetical =>
      (generateAlphabeticalMarker settings expectedValue.toNat).map fun m =>
        { l with marker := applyCaseStyle context m, separator := context.separator }
    | .numbered =>
      some { l with marker := (toString expectedValue).data, separator := context.separator }
    | .unordered => none

/-- Accumulator of the `collectReorderChanges` loop: the context stack, the
changes pushed so far, and — instrumenting the `catch { // Ignore? }`
block, whose effect the source otherwise swallows — whether any per-line
marker correction has failed. -/
structure ReorderState where
  contextStack : List ParsedListLine
  changes : List (Nat × List Char)
  failed : Bool

/-- One iteration of the `for (const [originalLineNumber, parsedLine] of
parsedList)` loop of `KeyHandler.collectReorderChanges`. -/
def collectReorderStep (settings : MoreOrderedListsSettings) (doc : List (List Char))
    (modifiedLineNumber : Nat) (modifiedLine : ParsedListLine)
    (st : ReorderState) (entry : Nat × ParsedListLine) : ReorderState :=
  let originalLineNumber := entry.1
  -- if this is the modified line, use updated data
  let lineToProcess := if originalLineNumber = modifiedLineNumber then modifiedLine else entry.2
  let indentationLevel := getIndentationLevel lineToProcess.indentation
  -- pop contexts until we're at (or below) target level
  let stack := st.contextStack.take (indentationLevel + 1)
  -- for lines after the modified line, correct the marker if needed
  let corrected :=
    if modifiedLineNumber < originalLineNumber then
      match stack.get? indentationLevel with
      | some context =>
        match correctNextMarker settings lineToProcess context with
        | some c => (c, st.failed)
        | none => (lineToProcess, true)      -- catch { // Ignore? }
      | none => (lineToProcess, st.failed)
    else (lineToProcess, st.failed)
  let lineToProcess := corrected.1
  -- push a change when the corrected text differs from the current text
  let changes :=
    if modifiedLineNumber < originalLineNumber ∧ originalLineNumber ≤ doc.length then
      if docLineText doc originalLineNumber ≠ getLineText lineToProcess then
        st.changes ++ [(originalLineNumber, getLineText lineToProcess)]
      else st.changes
    else st.changes
  -- update context stack with current line
  let newStack :=
    if stack.length = indentationLevel then stack ++ [lineToProcess]
    else stack.set indentationLevel lineToProcess
  ⟨newStack, changes, corrected.2⟩

/-- `KeyHandler.collectReorderChanges` (older key-handler revision,
317–379): the list of line rewrites, paired with the instrumented "some
per-line correction failed" flag. -/
def collectReorderChanges (settings : MoreOrderedListsSettings) (doc : List (List Char))
    (parsedList : List (Nat × ParsedListLine))
    (modifiedLineNumber : Nat) (modifiedLine : ParsedListLine) :
    List (Nat × List Char) × Bool :=
  let st := parsedList.foldl (collectReorderStep settings doc modifiedLineNumber modifiedLine)
    ⟨[], [], false⟩
  (st.changes, st.failed)

/-! ## Concrete instances used by the resequencing claims -/

/-- Settings with the repeated-letters nested-alphabetical mode enabled. -/
def repeatedSettings : MoreOrderedListsSettings :=
  { DEFAULT_SETTINGS with nestedAlphabeticalMode := NestedMode.repeated }

/-- `yyyyyyyyyy. one` — repeated-letters value 259. -/
def reorderLine1 : ParsedListLine :=
  ⟨ListType.nestedAlphabetical, [], "yyyyyyyyyy".data, ListSeparator.dot, " one".data⟩

/-- `bb. two` — a stale marker the walk will rewrite. -/
def reorderLine2 : ParsedListLine :=
  ⟨ListType.nestedAlphabetical, [], "bb".data, ListSeparator.dot, " two".data⟩

/-- `cc. three` — the line whose successor (261) the codec cannot encode. -/
def reorderLine3 : ParsedListLine :=
  ⟨ListType.nestedAlphabetical, [], "cc".data, ListSeparator.dot, " three".data⟩

def reorderDoc : List (List Char) :=
  ["yyyyyyyyyy. one".data, "bb. two".data, "cc. three".data]

/-- The resequencing walk after an edit of line 1: line 2's successor is
260 (`zzzzzzzzzz`, rewritten), line 3's successor would be 261, which
`generateRepeatedLettersMarker` refuses to encode. -/
def reorderResult : List (Nat × List Char) × Bool :=
  collectReorderChanges repeatedSettings reorderDoc
    [(1, reorderLine1), (2, reorderLine2), (3, reorderLine3)] 1 reorderLine1

/-- A two-line document exercising the parser invariant. -/
def twoLineDoc : Nat → List Char :=
  fun n => (["A. first", "B. second"].getD (n - 1) "").data

/-! ## Helper lemmas: bijective base-26 round trip -/

theorem bijectiveDigit_ofNat :
    ∀ d < 27, 1 ≤ d → bijectiveDigit (Char.ofNat (96 + d)) = some d := by
  decide

theorem bijectiveSum_encodeGo : ∀ (r : Nat) (acc : List Char) (w : Nat),
    bijectiveSum acc = some w →
    bijectiveSum (generateStandardAlphabeticalMarkerGo r acc)
      = some (r * 26 ^ acc.length + w) := by
  intro r
  induction r using Nat.strong_induction_on with
  | _ r ih =>
    intro acc w hacc
    rw [generateStandardAlphabeticalMarkerGo]
    by_cases hr : r = 0
    · subst hr; simpa using hacc
    · simp only [if_neg hr]
      have hd : bijectiveDigit (Char.ofNat (96 + ((r - 1) % 26 + 1))) = some ((r - 1) % 26 + 1) :=
        bijectiveDigit_ofNat _ (by omega) (by omega)
      have hcons : bijectiveSum (Char.ofNat (96 + ((r - 1) % 26 + 1)) :: acc)
          = some (((r - 1) % 26 + 1) * 26 ^ acc.length + w) := by
        simp [bijectiveSum, hd, hacc]
      have hlt : (r - 1) / 26 < r := by
        have := Nat.div_le_self (r - 1) 26; omega
      have hrec := ih ((r - 1) / 26) hlt _ _ hcons
      rw [hrec]
      congr 1
      set q := (r - 1) / 26 with hqdef
      set m := (r - 1) % 26 with hmdef
      have hr' : r = 26 * q + m + 1 := by omega
      rw [hr']
      simp [List.length_cons, pow_succ]
      ring

theorem bijective_decode_encode (v : Nat) (h : 1 ≤ v) :
    (generateStandardAlphabeticalMarker v).bind calculateBijectiveBase26Value = some v := by
  rw [generateStandardAlphabeticalMarker, if_neg (by omega)]
  have hs := bijectiveSum_encodeGo v [] 0 rfl
  simp at hs
  simp [Option.bind, calculateBijectiveBase26Value, hs]
  omega

/-! ## Helper lemmas: repeated-letters codec -/

theorem repeatedGo_isSome (value : Nat) : ∀ (fuel baseValue length : Nat),
    (generateRepeatedLettersMarkerGo value baseValue length fuel).isSome
      ↔ value ≤ baseValue + 26 * fuel + 26 := by
  intro fuel
  induction fuel with
  | zero =>
    intro b l
    rw [generateRepeatedLettersMarkerGo]
    by_cases h : value ≤ b + 26
    · simp [if_pos h]; omega
    · simp [if_neg h]; omega
  | succ fuel ih =>
    intro b l
    rw [generateRepeatedLettersMarkerGo]
    by_cases h : value ≤ b + 26
    · simp [if_pos h]; omega
    · rw [if_neg h]
      show (generateRepeatedLettersMarkerGo value (b + 26) (l + 1) fuel).isSome ↔ _
      rw [ih]
      omega

theorem lower_letter : ∀ k < 26, toLowerChar (Char.ofNat (97 + k)) = Char.ofNat (97 + k) := by
  decide

theorem letter_toNat : ∀ k < 26, (Char.ofNat (97 + k)).toNat = 97 + k := by decide

theorem repeated_decode_closed (L k : Nat) (hL : 1 ≤ L) (hk : k < 26) :
    calculateRepeatedLettersValue (List.replicate L (Char.ofNat (97 + k)))
      = some (26 * (L - 1) + (k + 1)) := by
  obtain ⟨L', rfl⟩ : ∃ L', L = L' + 1 := ⟨L - 1, by omega⟩
  have hlow := lower_letter k hk
  have htn := letter_toNat k hk
  have h1 : toLowerStr (List.replicate (L' + 1) (Char.ofNat (97 + k)))
      = Char.ofNat (97 + k) :: List.replicate L' (Char.ofNat (97 + k)) := by
    rw [toLowerStr, List.map_replicate, hlow, List.replicate_succ]
  have hall : (List.replicate L' (Char.ofNat (97 + k))).all
      (fun c => c = Char.ofNat (97 + k)) = true := by
    simp [List.all_eq_true, List.mem_replicate]
  simp [calculateRepeatedLettersValue, h1, hall, htn]
  omega

/-! ## Helper lemmas: the Roman validator's language -/

theorem romanTables_facts : ∀ d < 10,
    (romanHundredsTable d).all isRomanChar = true
    ∧ (romanTensTable d).all isRomanChar = true
    ∧ (romanUnitsTable d).all isRomanChar = true
    ∧ (romanHundredsTable d = [] ↔ d = 0)
    ∧ (romanTensTable d = [] ↔ d = 0)
    ∧ (romanUnitsTable d = [] ↔ d = 0) := by decide

theorem romanPatternMatch_elim (s : List Char) (hm : romanPatternMatch s = true) :
    ∃ a h t u, a < 4 ∧ h < 10 ∧ t < 10 ∧ u < 10 ∧
      s = List.replicate a 'm' ++ romanHundredsTable h ++ romanTensTable t
        ++ romanUnitsTable u := by
  rw [romanPatternMatch] at hm
  obtain ⟨a, ha, hm⟩ := List.any_eq_true.mp hm
  obtain ⟨h, hh, hm⟩ := List.any_eq_true.mp hm
  obtain ⟨t, ht, hm⟩ := List.any_eq_true.mp hm
  obtain ⟨u, hu, hm⟩ := List.any_eq_true.mp hm
  exact ⟨a, h, t, u, List.mem_range.mp ha, List.mem_range.mp hh, List.mem_range.mp ht,
    List.mem_range.mp hu, by simpa using hm⟩

theorem romanPatternMatch_intro (s : List Char) (a h t u : Nat)
    (ha : a < 4) (hh : h < 10) (ht : t < 10) (hu : u < 10)
    (hs : s = List.replicate a 'm' ++ romanHundredsTable h ++ romanTensTable t
      ++ romanUnitsTable u) :
    romanPatternMatch s = true := by
  rw [romanPatternMatch]
  refine List.any_eq_true.mpr ⟨a, List.mem_range.mpr ha, ?_⟩
  refine List.any_eq_true.mpr ⟨h, List.mem_range.mpr hh, ?_⟩
  refine List.any_eq_true.mpr ⟨t, List.mem_range.mpr ht, ?_⟩
  refine List.any_eq_true.mpr ⟨u, List.mem_range.mpr hu, ?_⟩
  simpa using hs

theorem canonicalRoman_decompose (a h t u : Nat) (hh : h < 10) (ht : t < 10) (hu : u < 10) :
    canonicalRoman (1000 * a + 100 * h + 10 * t + u)
      = List.replicate a 'm' ++ romanHundredsTable h ++ romanTensTable t
        ++ romanUnitsTable u := by
  have e1 : (1000 * a + 100 * h + 10 * t + u) / 1000 = a := by omega
  have e2 : (1000 * a + 100 * h + 10 * t + u) / 100 % 10 = h := by omega
  have e3 : (1000 * a + 100 * h + 10 * t + u) / 10 % 10 = t := by omega
  have e4 : (1000 * a + 100 * h + 10 * t + u) % 10 = u := by omega
  rw [canonicalRoman, e1, e2, e3, e4]

theorem isValidRomanNumeral_eq (m : List Char) :
    isValidRomanNumeral m
      = (!(toLowerStr m).isEmpty && (toLowerStr m).all isRomanChar
          && romanPatternMatch (toLowerStr m)) := by
  rw [isValidRomanNumeral]
  by_cases h1 : (toLowerStr m).isEmpty
  · simp [h1]
  · by_cases h2 : (toLowerStr m).all isRomanChar
    · simp [h1, h2]
    · simp [h1, h2]

theorem all_replicate_m (k : Nat) : (List.replicate k 'm').all isRomanChar = true := by
  simp only [List.all_eq_true]
  intro c hc
  rw [List.eq_of_mem_replicate hc]
  decide

theorem validator_iff_canonical (m : List Char) :
    isValidRomanNumeral m = true
      ↔ ∃ n, 1 ≤ n ∧ n ≤ 3999 ∧ toLowerStr m = canonicalRoman n := by
  rw [isValidRomanNumeral_eq]
  constructor
  · intro hv
    simp only [Bool.and_eq_true, Bool.not_eq_true'] at hv
    obtain ⟨⟨hne, _hall⟩, hmatch⟩ := hv
    obtain ⟨a, h, t, u, ha, hh, ht, hu, hs⟩ := romanPatternMatch_elim _ hmatch
    refine ⟨1000 * a + 100 * h + 10 * t + u, ?_, by omega,
      by rw [canonicalRoman_decompose a h t u hh ht hu]; exact hs⟩
    by_contra hzero
    have h0 : a = 0 ∧ h = 0 ∧ t = 0 ∧ u = 0 := by omega
    obtain ⟨rfl, rfl, rfl, rfl⟩ := h0
    have hval : List.replicate 0 'm' ++ romanHundredsTable 0 ++ romanTensTable 0
        ++ romanUnitsTable 0 = ([] : List Char) := by decide
    rw [hs, hval] at hne
    simp at hne
  · rintro ⟨n, h1, h2, hm⟩
    rw [hm]
    have ha : n / 1000 < 4 := by omega
    have hh : n / 100 % 10 < 10 := by omega
    have ht : n / 10 % 10 < 10 := by omega
    have hu : n % 10 < 10 := by omega
    have hfh := romanTables_facts _ hh
    have hft := romanTables_facts _ ht
    have hfu := romanTables_facts _ hu
    have hshape : canonicalRoman n
        = List.replicate (n / 1000) 'm' ++ romanHundredsTable (n / 100 % 10)
          ++ romanTensTable (n / 10 % 10) ++ romanUnitsTable (n % 10) := rfl
    have hne : canonicalRoman n ≠ [] := by
      rw [hshape]
      intro hnil
      simp only [List.append_eq_nil, List.replicate_eq_nil_iff] at hnil
      obtain ⟨⟨⟨hz1, hz2⟩, hz3⟩, hz4⟩ := hnil
      have e2 : n / 100 % 10 = 0 := (hfh.2.2.2.1).mp hz2
      have e3 : n / 10 % 10 = 0 := (hft.2.2.2.2.1).mp hz3
      have e4 : n % 10 = 0 := (hfu.2.2.2.2.2).mp hz4
      omega
    have hall : (canonicalRoman n).all isRomanChar = true := by
      rw [hshape]
      simp only [List.all_append, Bool.and_eq_true]
      exact ⟨⟨⟨all_replicate_m _, hfh.1⟩, hft.2.1⟩, hfu.2.2.1⟩
    have hmatch : romanPatternMatch (canonicalRoman n) = true :=
      romanPatternMatch_intro _ _ _ _ _ ha hh ht hu hshape
    have hemp : (canonicalRoman n).isEmpty = false := by
      cases hcn : canonicalRoman n with
      | nil => exact absurd hcn hne
      | cons a l => rfl
    simp [hall, hmatch, hemp]

/-! ## Helper lemmas: parser list structure -/

/-- Line-number sets of two parsed lists do not intersect. -/
def linesDisjoint (l₁ l₂ : List (Nat × ParsedListLine)) : Prop :=
  ∀ n, n ∈ l₁.map Prod.fst → n ∉ l₂.map Prod.fst

theorem parseListGo_map_fst (settings : MoreOrderedListsSettings) (doc : Nat → List Char) :
    ∀ (fuel : Nat) (stack : List ParsedListLine) (n e : Nat),
    (parseListGo settings doc fuel stack n e).map Prod.fst
      = List.range' n (parseListGo settings doc fuel stack n e).length := by
  intro fuel
  induction fuel with
  | zero => intro stack n e; simp [parseListGo]
  | succ fuel ih =>
    intro stack n e
    rw [parseListGo]
    by_cases h : e < n
    · simp [if_pos h]
    · rw [if_neg h]
      cases hstep : parseListStep settings stack (doc n) with
      | none => simp
      | some p =>
        obtain ⟨st, cur⟩ := p
        simp [ih, List.range'_succ]

theorem parseList_map_fst (settings : MoreOrderedListsSettings) (doc : Nat → List Char)
    (start endLine : Nat) :
    (parseList settings doc start endLine).map Prod.fst
      = List.range' start (parseList settings doc start endLine).length :=
  parseListGo_map_fst settings doc _ _ _ _

theorem foldl_max_range' : ∀ (len n a : Nat),
    (List.range' n (len + 1)).foldl max a = max a (n + len) := by
  intro len
  induction len with
  | zero => intro n a; simp [List.range'_succ]
  | succ len ih =>
    intro n a
    rw [List.range'_succ, List.foldl_cons, ih]
    omega

theorem maxLineNumber_eq (l : List (Nat × ParsedListLine)) (n : Nat)
    (h : l.map Prod.fst = List.range' n l.length) (hne : l ≠ []) :
    maxLineNumber l = n + l.length - 1 := by
  obtain ⟨len, hlen⟩ : ∃ len, l.length = len + 1 := by
    cases l with
    | nil => simp at hne
    | cons a t => exact ⟨t.length, rfl⟩
  rw [maxLineNumber, h, hlen, foldl_max_range']
  omega

theorem mem_fst_lt (l : List (Nat × ParsedListLine)) (s m : Nat)
    (h : l.map Prod.fst = List.range' s l.length) (hm : m ∈ l.map Prod.fst) :
    s ≤ m ∧ m < s + l.length := by
  rw [h] at hm
  exact List.mem_range'_1.mp hm

theorem chain'_of_map_fst_range' : ∀ (l : List (Nat × ParsedListLine)) (s : Nat),
    l.map Prod.fst = List.range' s l.length →
    List.Chain' (fun a b => b.1 = a.1 + 1) l := by
  intro l
  induction l with
  | nil => simp
  | cons a l ih =>
    intro s h
    rw [List.map_cons, List.length_cons, List.range'_succ] at h
    simp only [List.cons.injEq] at h
    obtain ⟨ha, h2⟩ := h
    cases l with
    | nil => simp
    | cons b l' =>
      rw [List.chain'_cons]
      refine ⟨?_, ih (s + 1) h2⟩
      have hb : b.1 = s + 1 := by
        rw [List.map_cons, List.length_cons, List.range'_succ] at h2
        simp only [List.cons.injEq] at h2
        exact h2.1
      omega

theorem parseListsGo_inv (settings : MoreOrderedListsSettings) (doc : Nat → List Char) :
    ∀ (fuel cur e : Nat),
    (∀ l ∈ parseListsGo settings doc fuel cur e,
       l ≠ [] ∧ ∃ s, cur ≤ s ∧ l.map Prod.fst = List.range' s l.length)
    ∧ List.Pairwise linesDisjoint (parseListsGo settings doc fuel cur e) := by
  intro fuel
  induction fuel with
  | zero => intro cur e; simp [parseListsGo]
  | succ fuel ih =>
    intro cur e
    rw [parseListsGo]
    by_cases h : e < cur
    · simp [if_pos h]
    · rw [if_neg h]
      cases hp : parseList settings doc cur e with
      | nil =>
        refine ⟨fun l hl => ?_, (ih (cur + 1) e).2⟩
        obtain ⟨hne, s, hs, hmap⟩ := (ih (cur + 1) e).1 l hl
        exact ⟨hne, s, by omega, hmap⟩
      | cons p rest =>
        have hmap : (p :: rest).map Prod.fst = List.range' cur (p :: rest).length := by
          rw [← hp]; exact parseList_map_fst settings doc cur e
        have hmax : maxLineNumber (p :: rest) + 1 = cur + (p :: rest).length := by
          rw [maxLineNumber_eq _ cur hmap (by simp)]
          simp
          omega
        constructor
        · intro l hl
          rcases List.mem_cons.mp hl with rfl | hl'
          · exact ⟨by simp, cur, le_refl _, hmap⟩
          · obtain ⟨hne, s, hs, hmap'⟩ := (ih (maxLineNumber (p :: rest) + 1) e).1 l hl'
            exact ⟨hne, s, by omega, hmap'⟩
        · rw [List.pairwise_cons]
          refine ⟨fun l₂ hl₂ n hn => ?_, (ih (maxLineNumber (p :: rest) + 1) e).2⟩
          obtain ⟨hne₂, s₂, hs₂, hmap₂⟩ := (ih (maxLineNumber (p :: rest) + 1) e).1 l₂ hl₂
          have h1 := mem_fst_lt _ _ _ hmap hn
          intro hn₂
          have h2 := mem_fst_lt _ _ _ hmap₂ hn₂
          omega

/-! ## The claims -/

/-- C1 (code bug): the claim says parse ∘ render is the identity on the
classified fields of every Marker Line.  With `Parser.createResult` of
`src/parser.ts` storing the matched content without the separating space
while `ParsedListLine.getLineText` renders plain
`indentation + marker + separator + content`, the round trip breaks:
parsing `"a. x"` yields content `"x"`, rendering that parsed line gives
`"a.x"`, which does not parse at all; and rendering a Marker Line whose
content carries its leading space (`" x"`, the shape the repository's own
tests expect) re-parses to content `"x"`, not `" x"`. -/
theorem C1_parse_render_roundtrip_code_bug :
    parseLine DEFAULT_SETTINGS "a. x".data none
      = some ⟨ListType.alphabetical, [], "a".data, ListSeparator.dot, "x".data⟩
    ∧ getLineText ⟨ListType.alphabetical, [], "a".data, ListSeparator.dot, "x".data⟩
      = "a.x".data
    ∧ parseLine DEFAULT_SETTINGS "a.x".data none = none
    ∧ getLineText ⟨ListType.alphabetical, [], "a".data, ListSeparator.dot, " x".data⟩
      = "a. x".data :=
  ⟨by decide, by decide, by decide, by decide⟩

/-- C2 (confirmed): the bijective base-26 decode table
(`a=1, z=26, aa=27, az=52, ba=53`) and, for every value `v ≥ 1`,
`decode (encode v) = v` for the alphabetical codec. -/
theorem C2_bijective_base26_codec :
    calculateBijectiveBase26Value "a".data = some 1
    ∧ calculateBijectiveBase26Value "z".data = some 26
    ∧ calculateBijectiveBase26Value "aa".data = some 27
    ∧ calculateBijectiveBase26Value "az".data = some 52
    ∧ calculateBijectiveBase26Value "ba".data = some 53
    ∧ ∀ v : Nat, 1 ≤ v →
        (generateStandardAlphabeticalMarker v).bind calculateBijectiveBase26Value
          = some v :=
  ⟨by decide, by decide, by decide, by decide, by decide, bijective_decode_encode⟩

/-- Witness for C2: the round trip evaluated at the concrete value 27. -/
theorem C2_bijective_base26_codec_witness :
    (generateStandardAlphabeticalMarker 27).bind calculateBijectiveBase26Value = some 27 :=
  C2_bijective_base26_codec.2.2.2.2.2 27 (by norm_num)

/-- C3 (confirmed): `Parser.isValidRomanNumeral` accepts a marker,
case-insensitively, exactly when its lowercasing is the canonical Roman
numeral of some integer between 1 and 3999; in particular the summable but
malformed `"iiii"` and `"vx"` are rejected, and so is the empty string. -/
theorem C3_roman_validator_exactly_canonical :
    (∀ m : List Char, isValidRomanNumeral m = true
      ↔ ∃ n, 1 ≤ n ∧ n ≤ 3999 ∧ toLowerStr m = canonicalRoman n)
    ∧ isValidRomanNumeral "iiii".data = false
    ∧ isValidRomanNumeral "vx".data = false
    ∧ isValidRomanNumeral [] = false :=
  ⟨validator_iff_canonical, by decide, by decide, by decide⟩

/-- Witness for C3: the characterisation applied at the concrete marker
`"MCMXCIV"` (canonical form of 1994). -/
theorem C3_roman_validator_exactly_canonical_witness :
    isValidRomanNumeral "MCMXCIV".data = true :=
  (C3_roman_validator_exactly_canonical.1 "MCMXCIV".data).mpr ⟨1994, by norm_num, by norm_num,
    by decide⟩

/-- C4 (confirmed): with the default settings (Roman and alphabetical lists
both enabled) and no context, marker `"c"` classifies Roman, of Roman value
100; with a prior same-level sibling of type Alphabetical and value 2
(marker `"b"`), the following `"c"` classifies Alphabetical, of bijective
value 3. -/
theorem C4_classification_precedence :
    determineListType DEFAULT_SETTINGS "c".data none = some ListType.roman
    ∧ calculateRomanValue "c".data = some 100
    ∧ getValue ⟨ListType.alphabetical, [], "b".data, ListSeparator.dot, " x".data⟩ false
      = some 2
    ∧ determineListType DEFAULT_SETTINGS "c".data
        (some ⟨ListType.alphabetical, [], "b".data, ListSeparator.dot, " x".data⟩)
      = some ListType.alphabetical
    ∧ calculateBijectiveBase26Value "c".data = some 3 :=
  ⟨by decide, by decide, by decide, by decide, by decide⟩

/-- C5 (counterexample): the claim says that when any line of the forward
resequencing walk fails, no computed rewrite is applied.  In the concrete
walk `reorderResult`, line 3's successor (repeated-letters value 261)
cannot be encoded — the instrumented failure flag is true — yet the change
list is not empty: line 2's rewrite is still produced. -/
theorem C5_all_or_nothing_counterexample :
    reorderResult.2 = true ∧ reorderResult.1 ≠ [] := by
  decide

/-- C5 (amended): resequencing is not all-or-nothing.
`KeyHandler.collectReorderChanges` catches a failed per-line marker
correction and ignores it (the failing line keeps its stale marker) while
the rewrites computed for the other lines are still returned for
application: in the concrete walk, line 3's successor cannot be encoded,
and the result is exactly the rewrite of line 2 together with the failure
flag. -/
theorem C5_partial_resequence_happens :
    reorderResult = ([(2, "zzzzzzzzzz. two".data)], true) := by
  decide

/-- C6 (counterexample): the claim says Roman encode of any value above
3999 fails and Roman decode of a marker above 3999 fails; in the code
`generateRomanMarker 4000` produces `"mmmm"` and `calculateRomanValue`
sums `"mmmm"` to 4000, neither erroring. -/
theorem C6_roman_range_counterexample :
    generateRomanMarker 4000 ≠ none ∧ calculateRomanValue "mmmm".data ≠ none := by
  decide

/-- C6 (amended): the Roman codec itself has no upper bound — encoding
succeeds for every value `v ≥ 1` (e.g. `encode 4000 = "mmmm"`) and the
summing decoder accepts markers above 3999 (`decode "mmmm" = 4000`); the
1–3999 limit is enforced only by the separate well-formedness validator,
which rejects such markers. -/
theorem C6_roman_codec_unbounded :
    (∀ v : Nat, 1 ≤ v → (generateRomanMarker v).isSome = true)
    ∧ generateRomanMarker 4000 = some "mmmm".data
    ∧ calculateRomanValue "mmmm".data = some 4000
    ∧ isValidRomanNumeral "mmmm".data = false := by
  refine ⟨fun v hv => ?_, by decide, by decide, by decide⟩
  rw [generateRomanMarker, if_neg (by omega)]
  rfl

/-- Witness for C6: the encoder applied at the concrete value 4000. -/
theorem C6_roman_codec_unbounded_witness :
    (generateRomanMarker 4000).isSome = true :=
  C6_roman_codec_unbounded.1 4000 (by norm_num)

/-- C7 (confirmed): in repeated-letters mode a marker of `L` identical
letters decodes to `26 * (L - 1) + letterPosition` with `letterPosition`
in 1–26 (`aa = 27`, `zz = 52`, `aaa = 53`), and a mixed multi-letter
marker such as `"ab"` fails to decode. -/
theorem C7_repeated_letters_decode :
    (∀ L k : Nat, 1 ≤ L → k < 26 →
      calculateRepeatedLettersValue (List.replicate L (Char.ofNat (97 + k)))
        = some (26 * (L - 1) + (k + 1)))
    ∧ calculateRepeatedLettersValue "aa".data = some 27
    ∧ calculateRepeatedLettersValue "zz".data = some 52
    ∧ calculateRepeatedLettersValue "aaa".data = some 53
    ∧ calculateRepeatedLettersValue "ab".data = none :=
  ⟨repeated_decode_closed, by decide, by decide, by decide, by decide⟩

/-- Witness for C7: the decode formula evaluated at `"aa"` (length 2 of the
letter `a`). -/
theorem C7_repeated_letters_decode_witness :
    calculateRepeatedLettersValue (List.replicate 2 (Char.ofNat (97 + 0)))
      = some (26 * (2 - 1) + (0 + 1)) :=
  C7_repeated_letters_decode.1 2 0 (by norm_num) (by norm_num)

/-- C8 (confirmed): for every settings, document and line range, the
Parsed Lists returned by `Parser.parseLists` are pairwise line-disjoint,
and within each returned list the line numbers increase by exactly 1. -/
theorem C8_parser_lists_invariant :
    ∀ (settings : MoreOrderedListsSettings) (doc : Nat → List Char) (start endLine : Nat),
    List.Pairwise linesDisjoint (parseLists settings doc start endLine)
    ∧ ∀ l ∈ parseLists settings doc start endLine,
        List.Chain' (fun a b => b.1 = a.1 + 1) l := by
  intro settings doc start endLine
  have h := parseListsGo_inv settings doc (endLine + 1 - start) start endLine
  refine ⟨h.2, fun l hl => ?_⟩
  obtain ⟨hne, s, hs, hmap⟩ := h.1 l hl
  exact chain'_of_map_fst_range' l s hmap

/-- Witness for C8: the contiguity conclusion applied to the one list the
parser returns on the concrete two-line document. -/
theorem C8_parser_lists_invariant_witness :
    List.Chain' (fun a b : Nat × ParsedListLine => b.1 = a.1 + 1)
      ((parseLists DEFAULT_SETTINGS twoLineDoc 1 2).getD 0 []) :=
  (C8_parser_lists_invariant DEFAULT_SETTINGS twoLineDoc 1 2).2 _ (by decide)

/-- C9 (code bug): the claim says decreasing indentation at level 0 is
always rejected with an error.  For the empty indentation the code does
throw, but for one to three residual spaces — still level 0 — the
`return ''` branch exits without throwing and without assigning, leaving
the indentation unchanged and signalling nothing. -/
theorem C9_decrease_indentation_code_bug :
    getIndentationLevel "   ".data = 0
    ∧ decreaseIndentationLevel "   ".data = some "   ".data
    ∧ decreaseIndentationLevel [] = none :=
  ⟨by decide, by decide, by decide⟩

/-- C10 (confirmed): the repeated-letters encoder succeeds exactly for
values 1 through 260 (10 length groups of 26 values each); every value
from 261 up is refused. -/
theorem C10_repeated_encoder_range :
    ∀ v : Nat, (generateRepeatedLettersMarker v).isSome ↔ 1 ≤ v ∧ v ≤ 260 := by
  intro v
  by_cases h : v < 1
  · have hv : v = 0 := by omega
    subst hv
    decide
  · rw [generateRepeatedLettersMarker, if_neg h, repeatedGo_isSome]
    omega

end MoreOrderedLists
